import Mathlib

/-!
Verification development for the Reflex inbound protocol engine
(frame codec, handshake, demultiplexer, destination parser, fallback
splicer, traffic morphing), shallowly embedded from the Go sources of
`proxy/reflex/inbound`.

Bytes are modelled as natural numbers below 256 (`List Nat`), machine
integers as `Nat`/`Int` with explicit reductions modulo `2^w` where the
code can overflow. Fallible Go functions return `Except`/`Option`;
functions that mutate the session in place return the updated session
together with the result, matching Go's pointer-receiver semantics.
-/

namespace Reflex

/-- A list of natural numbers that are all valid bytes. -/
def Bytes (l : List Nat) : Prop := ∀ b ∈ l, b < 256

instance (l : List Nat) : Decidable (Bytes l) := by
  unfold Bytes; infer_instance

/-- Big-endian encoding of `n` into `k` bytes, as written by Go's
`binary.BigEndian.PutUint16`/`PutUint64` (the value is reduced mod `256^k`). -/
def beBytes : Nat → Nat → List Nat
  | 0, _ => []
  | k + 1, n => (n / 256 ^ k) % 256 :: beBytes k n

/-- Big-endian decoding of a byte list, as read by Go's
`binary.BigEndian.Uint16`/`Uint32`. -/
def fromBE (l : List Nat) : Nat := l.foldl (fun a b => a * 256 + b) 0

theorem beBytes_length (k n : Nat) : (beBytes k n).length = k := by
  induction k generalizing n with
  | zero => rfl
  | succ k ih => simp [beBytes, ih]

theorem beBytes_bytes (k n : Nat) : Bytes (beBytes k n) := by
  induction k generalizing n with
  | zero => intro b hb; simp [beBytes] at hb
  | succ k ih =>
    intro b hb
    simp only [beBytes, List.mem_cons] at hb
    rcases hb with h | h
    · omega
    · exact ih n b h

theorem fromBE_aux (l : List Nat) :
    ∀ a : Nat, l.foldl (fun a b => a * 256 + b) a = a * 256 ^ l.length + fromBE l := by
  induction l with
  | nil => intro a; simp [fromBE]
  | cons c t ih =>
    intro a
    have hfrom : fromBE (c :: t) = c * 256 ^ t.length + fromBE t := by
      show t.foldl (fun a b => a * 256 + b) (0 * 256 + c) = _
      rw [ih (0 * 256 + c)]
      ring
    show t.foldl (fun a b => a * 256 + b) (a * 256 + c) = _
    rw [ih (a * 256 + c), hfrom, List.length_cons]
    ring

theorem fromBE_cons (b : Nat) (l : List Nat) :
    fromBE (b :: l) = b * 256 ^ l.length + fromBE l := by
  show l.foldl (fun a b => a * 256 + b) (0 * 256 + b) = _
  rw [fromBE_aux l (0 * 256 + b)]
  ring

theorem fromBE_beBytes (k n : Nat) : fromBE (beBytes k n) = n % 256 ^ k := by
  induction k generalizing n with
  | zero => simp [beBytes, fromBE, Nat.mod_one]
  | succ k ih =>
    rw [beBytes, fromBE_cons, beBytes_length, ih]
    have h256 : (256 : Nat) ^ (k + 1) = 256 ^ k * 256 := by ring
    rw [h256, Nat.mod_mul]
    ring

theorem beBytes_inj {k a b : Nat} (h : beBytes k a = beBytes k b) :
    a % 256 ^ k = b % 256 ^ k := by
  have := congrArg fromBE h
  rwa [fromBE_beBytes, fromBE_beBytes] at this

/-! ### Abstract AEAD model

The cipher used by the codec is ChaCha20-Poly1305 from
`golang.org/x/crypto/chacha20poly1305`, a library external to this
repository. We model its functional interface: `aeadSeal key nonce p`
produces a ciphertext of length `p.length + 16` (body ++ 16-byte tag),
and `aeadOpen key nonce c` recovers the plaintext exactly when the tag
matches the one `aeadSeal` would produce for the same key and nonce,
failing otherwise. The tag binds key, nonce and ciphertext body (in the
real AEAD a mismatch of any of these fails authentication except with
negligible probability; in the model it fails deterministically). -/

/-- Keystream byte at position `i` for the modelled stream cipher. -/
def ksByte (key nonce : List Nat) (i : Nat) : Nat :=
  (key.getD (i % 32) 0 + nonce.getD (i % 12) 0 + i) % 256

/-- Encrypt a body bytewise with the keystream, starting at index `i`. -/
def encBody (key nonce : List Nat) : Nat → List Nat → List Nat
  | _, [] => []
  | i, b :: bs => (b + ksByte key nonce i) % 256 :: encBody key nonce (i + 1) bs

/-- Decrypt a body bytewise with the keystream, starting at index `i`. -/
def decBody (key nonce : List Nat) : Nat → List Nat → List Nat
  | _, [] => []
  | i, b :: bs => (b + (256 - ksByte key nonce i)) % 256 :: decBody key nonce (i + 1) bs

/-- The 16-byte authentication tag of the modelled AEAD: the 12 nonce
bytes followed by 4 checksum bytes binding the key and the body. -/
def sealTag (key nonce body : List Nat) : List Nat :=
  nonce ++ [key.sum % 256, body.sum % 256, body.length % 256, body.length / 256 % 256]

/-- Modelled AEAD seal: encrypted body followed by the 16-byte tag. -/
def aeadSeal (key nonce p : List Nat) : List Nat :=
  let body := encBody key nonce 0 p
  body ++ sealTag key nonce body

/-- Modelled AEAD open: split off the 16-byte tag, verify it, decrypt. -/
def aeadOpen (key nonce c : List Nat) : Option (List Nat) :=
  if c.length < 16 then none
  else
    let body := c.take (c.length - 16)
    let tag := c.drop (c.length - 16)
    if tag = sealTag key nonce body then some (decBody key nonce 0 body) else none

theorem encBody_length (key nonce : List Nat) (i : Nat) (p : List Nat) :
    (encBody key nonce i p).length = p.length := by
  induction p generalizing i with
  | nil => rfl
  | cons b bs ih => simp [encBody, ih]

theorem dec_enc_body (key nonce : List Nat) (i : Nat) (p : List Nat) (hp : Bytes p) :
    decBody key nonce i (encBody key nonce i p) = p := by
  induction p generalizing i with
  | nil => rfl
  | cons b bs ih =>
    have hb : b < 256 := hp b (List.mem_cons_self b bs)
    have hbs : Bytes bs := fun x hx => hp x (List.mem_cons_of_mem b hx)
    have hks : ksByte key nonce i < 256 := Nat.mod_lt _ (by norm_num)
    simp only [encBody, decBody, ih (i + 1) hbs, List.cons.injEq, and_true]
    omega

theorem aeadSeal_length_nonce12 (key nonce p : List Nat) (h : nonce.length = 12) :
    (aeadSeal key nonce p).length = p.length + 16 := by
  simp [aeadSeal, sealTag, encBody_length, h]

theorem aeadOpen_aeadSeal (key nonce p : List Nat) (hn : nonce.length = 12)
    (hp : Bytes p) : aeadOpen key nonce (aeadSeal key nonce p) = some p := by
  have hlen : (aeadSeal key nonce p).length = p.length + 16 :=
    aeadSeal_length_nonce12 key nonce p hn
  have hbody : (encBody key nonce 0 p).length = p.length := encBody_length _ _ _ _
  have htag : (sealTag key nonce (encBody key nonce 0 p)).length = 16 := by
    simp [sealTag, hn]
  unfold aeadOpen
  rw [hlen]
  simp only [Nat.add_sub_cancel]
  have hsplit : aeadSeal key nonce p =
      encBody key nonce 0 p ++ sealTag key nonce (encBody key nonce 0 p) := rfl
  have htake : (aeadSeal key nonce p).take p.length = encBody key nonce 0 p := by
    rw [hsplit, ← hbody, List.take_left]
  have hdrop : (aeadSeal key nonce p).drop p.length =
      sealTag key nonce (encBody key nonce 0 p) := by
    rw [hsplit, ← hbody, List.drop_left]
  rw [if_neg (by omega), htake, hdrop, if_pos rfl, dec_enc_body key nonce 0 p hp]

/-- Opening under a different 12-byte nonce than the one used to seal
fails: the tag embeds the nonce, so verification rejects. -/
theorem aeadOpen_wrong_nonce (key n₁ n₂ c : List Nat)
    (h₁ : n₁.length = 12) (h₂ : n₂.length = 12) (hne : n₁ ≠ n₂)
    (hop : ∃ p, aeadOpen key n₁ c = some p) :
    aeadOpen key n₂ c = none := by
  obtain ⟨p, hp⟩ := hop
  unfold aeadOpen at hp ⊢
  by_cases hlen : c.length < 16
  · rw [if_pos hlen] at hp; exact absurd hp (by simp)
  · rw [if_neg hlen] at hp ⊢
    set body := c.take (c.length - 16) with hbodydef
    by_cases htag : c.drop (c.length - 16) = sealTag key n₁ body
    · rw [if_neg]
      intro htag₂
      rw [htag] at htag₂
      have := congrArg (List.take n₁.length) htag₂
      rw [sealTag, sealTag, List.take_left, h₁, ← h₂, List.take_left] at this
      exact hne this
    · rw [if_neg htag] at hp; exact absurd hp (by simp)

/-! ### Frame codec (session.go)

`Session` carries the key and the two direction counters (`readNonce`,
`writeNonce`, Go `uint64`; the nonce bytes reduce the counter mod `2^64`
exactly as `PutUint64` does). Go mutates the session in place, so
`ReadFrame`/`WriteFrame` return the updated session next to the result:
an error return still carries whatever counter state the code left
behind. -/

/-- Frame types: DATA=1, PADDING=2, TIMING=3, CLOSE=4. -/
def FrameTypeData : Nat := 1
def FrameTypePadding : Nat := 2
def FrameTypeTiming : Nat := 3
def FrameTypeClose : Nat := 4

structure Frame where
  length : Nat
  type : Nat
  payload : List Nat
deriving Repr, DecidableEq

structure Session where
  key : List Nat
  readNonce : Nat
  writeNonce : Nat
deriving Repr, DecidableEq

/-- `NewSession` rejects any key whose length is not 32 and otherwise
starts both counters at zero. -/
def NewSession (sessionKey : List Nat) : Except String Session :=
  if sessionKey.length = 32 then
    Except.ok { key := sessionKey, readNonce := 0, writeNonce := 0 }
  else Except.error "session key must be 32 bytes"

/-- The 12-byte AEAD nonce: 4 zero bytes then the counter big-endian. -/
def nonceBytes (counter : Nat) : List Nat :=
  List.replicate 4 0 ++ beBytes 8 counter

theorem nonceBytes_length (c : Nat) : (nonceBytes c).length = 12 := by
  simp [nonceBytes, beBytes_length]

theorem nonceBytes_inj {a b : Nat} (h : nonceBytes a = nonceBytes b) :
    a % 2 ^ 64 = b % 2 ^ 64 := by
  have h8 : beBytes 8 a = beBytes 8 b := by
    have := congrArg (List.drop 4) h
    simpa [nonceBytes] using this
  have := beBytes_inj h8
  have hpow : (256 : Nat) ^ 8 = 2 ^ 64 := by norm_num
  rwa [hpow] at this

/-- `Session.ReadFrame`: parse the 3-byte header, validate the type,
read the ciphertext, then take the read nonce, increment the counter and
AEAD-open. Returns the consumed session together with the frame and the
unread remainder of the input. -/
def ReadFrame (s : Session) (input : List Nat) :
    Session × Except String (Frame × List Nat) :=
  if input.length < 3 then (s, Except.error "short read")
  else if input.getD 2 0 ≠ FrameTypeData ∧ input.getD 2 0 ≠ FrameTypePadding ∧
      input.getD 2 0 ≠ FrameTypeTiming ∧ input.getD 2 0 ≠ FrameTypeClose then
    (s, Except.error "invalid frame type")
  else if (input.drop 3).length < fromBE (input.take 2) then
    (s, Except.error "short read")
  else
    match aeadOpen s.key (nonceBytes s.readNonce)
        ((input.drop 3).take (fromBE (input.take 2))) with
    | some payload =>
        ({ s with readNonce := s.readNonce + 1 },
         Except.ok (⟨fromBE (input.take 2), input.getD 2 0, payload⟩,
           (input.drop 3).drop (fromBE (input.take 2))))
    | none => ({ s with readNonce := s.readNonce + 1 },
        Except.error "decryption failed")

/-- `Session.WriteFrame`: take the write nonce, increment the counter,
AEAD-seal, reject encrypted frames larger than 65535 bytes, otherwise
emit `length_be16 || type_u8 || ciphertext`. -/
def WriteFrame (s : Session) (frameType : Nat) (data : List Nat) :
    Session × Except String (List Nat) :=
  if (aeadSeal s.key (nonceBytes s.writeNonce) data).length > 65535 then
    ({ s with writeNonce := s.writeNonce + 1 },
     Except.error "encrypted frame too large")
  else
    ({ s with writeNonce := s.writeNonce + 1 },
     Except.ok (beBytes 2 (aeadSeal s.key (nonceBytes s.writeNonce) data).length ++
       [frameType % 256] ++ aeadSeal s.key (nonceBytes s.writeNonce) data))

/-- Run a sequence of `WriteFrame` calls; `none` when any call fails. -/
def writeSeq : Session → List (Nat × List Nat) → Option (Session × List (List Nat))
  | s, [] => some (s, [])
  | s, (t, p) :: ops =>
    match WriteFrame s t p with
    | (s₁, Except.ok w) =>
      match writeSeq s₁ ops with
      | some (s₂, ws) => some (s₂, w :: ws)
      | none => none
    | (_, Except.error _) => none

/-- Run `n` consecutive `ReadFrame` calls on a byte stream; `none` when
any call fails. -/
def readSeq : Session → List Nat → Nat → Option (Session × List Frame × List Nat)
  | s, input, 0 => some (s, [], input)
  | s, input, n + 1 =>
    match ReadFrame s input with
    | (s₁, Except.ok (f, rest)) =>
      match readSeq s₁ rest n with
      | some (s₂, fs, r) => some (s₂, f :: fs, r)
      | none => none
    | (_, Except.error _) => none

theorem WriteFrame_fst (s : Session) (t : Nat) (p : List Nat) :
    (WriteFrame s t p).1 = { s with writeNonce := s.writeNonce + 1 } := by
  unfold WriteFrame
  split <;> rfl

theorem WriteFrame_eq (s : Session) (t : Nat) (p : List Nat)
    (hlen : p.length ≤ 65519) :
    WriteFrame s t p =
      ({ s with writeNonce := s.writeNonce + 1 },
       Except.ok (beBytes 2 (p.length + 16) ++ [t % 256] ++
         aeadSeal s.key (nonceBytes s.writeNonce) p)) := by
  have henc : (aeadSeal s.key (nonceBytes s.writeNonce) p).length = p.length + 16 :=
    aeadSeal_length_nonce12 _ _ _ (nonceBytes_length _)
  unfold WriteFrame
  rw [if_neg (by omega), henc]

theorem beBytes_two (n : Nat) : beBytes 2 n = [n / 256 % 256, n % 256] := by
  simp [beBytes]

theorem ReadFrame_of_WriteFrame (sw sr : Session) (t : Nat) (p w : List Nat)
    (hkey : sr.key = sw.key) (hctr : sr.readNonce = sw.writeNonce)
    (ht : t = 1 ∨ t = 2 ∨ t = 3 ∨ t = 4)
    (hp : Bytes p) (hlen : p.length ≤ 65519)
    (hw : (WriteFrame sw t p).2 = Except.ok w) :
    ReadFrame sr w = ({ sr with readNonce := sr.readNonce + 1 },
      Except.ok (⟨p.length + 16, t, p⟩, [])) := by
  have hwf := WriteFrame_eq sw t p hlen
  rw [hwf] at hw
  have htmod : t % 256 = t := Nat.mod_eq_of_lt (by omega)
  have hw' : w = (p.length + 16) / 256 % 256 :: (p.length + 16) % 256 :: t ::
      aeadSeal sw.key (nonceBytes sw.writeNonce) p := by
    have := hw
    simp only [Except.ok.injEq] at this
    rw [← this, beBytes_two, htmod]
    rfl
  have henc : (aeadSeal sw.key (nonceBytes sw.writeNonce) p).length = p.length + 16 :=
    aeadSeal_length_nonce12 _ _ _ (nonceBytes_length _)
  have hfrom : fromBE [(p.length + 16) / 256 % 256, (p.length + 16) % 256] =
      p.length + 16 := by
    rw [← beBytes_two, fromBE_beBytes]
    exact Nat.mod_eq_of_lt (by norm_num; omega)
  subst hw'
  unfold ReadFrame
  rw [if_neg (by simp)]
  have htake2 : ((p.length + 16) / 256 % 256 :: (p.length + 16) % 256 :: t ::
      aeadSeal sw.key (nonceBytes sw.writeNonce) p).take 2 =
      [(p.length + 16) / 256 % 256, (p.length + 16) % 256] := rfl
  have hget : ((p.length + 16) / 256 % 256 :: (p.length + 16) % 256 :: t ::
      aeadSeal sw.key (nonceBytes sw.writeNonce) p).getD 2 0 = t := rfl
  have hdrop3 : ((p.length + 16) / 256 % 256 :: (p.length + 16) % 256 :: t ::
      aeadSeal sw.key (nonceBytes sw.writeNonce) p).drop 3 =
      aeadSeal sw.key (nonceBytes sw.writeNonce) p := rfl
  rw [if_neg (by
    rw [hget]
    simp only [FrameTypeData, FrameTypePadding, FrameTypeTiming, FrameTypeClose]
    omega)]
  rw [if_neg (by rw [hdrop3, htake2, hfrom, henc]; omega)]
  rw [hdrop3, htake2, hfrom, hget, ← henc, List.take_length, hkey, hctr,
    aeadOpen_aeadSeal _ _ _ (nonceBytes_length _) hp, List.drop_length, henc]

theorem writeSeq_writeNonce :
    ∀ (ops : List (Nat × List Nat)) (s s' : Session) (outs : List (List Nat)),
      writeSeq s ops = some (s', outs) → s'.writeNonce = s.writeNonce + ops.length := by
  intro ops
  induction ops with
  | nil => intro s s' outs h; simp_all [writeSeq]
  | cons op ops ih =>
    intro s s' outs h
    obtain ⟨t, p⟩ := op
    unfold writeSeq at h
    rcases hwf : WriteFrame s t p with ⟨s₁, r⟩
    rw [hwf] at h
    cases r with
    | error e => simp at h
    | ok w =>
      simp only at h
      rcases hseq : writeSeq s₁ ops with _ | ⟨s₂, ws⟩
      · rw [hseq] at h; simp at h
      · rw [hseq] at h
        simp only [Option.some.injEq, Prod.mk.injEq] at h
        have hs₁ : s₁ = { s with writeNonce := s.writeNonce + 1 } := by
          have := WriteFrame_fst s t p
          rw [hwf] at this
          exact this
        have := ih s₁ s₂ ws hseq
        rw [← h.1, this, hs₁]
        simp only [List.length_cons]
        omega

theorem ReadFrame_ok_fst (s s' : Session) (input : List Nat) (x : Frame × List Nat)
    (h : ReadFrame s input = (s', Except.ok x)) :
    s' = { s with readNonce := s.readNonce + 1 } := by
  unfold ReadFrame at h
  split at h
  · simp at h
  · split at h
    · simp at h
    · split at h
      · simp at h
      · split at h
        · exact (Prod.mk.injEq _ _ _ _ ▸ h).1.symm
        · simp at h

theorem readSeq_readNonce :
    ∀ (n : Nat) (s : Session) (input : List Nat) (s' : Session) (fs : List Frame)
      (rest : List Nat), readSeq s input n = some (s', fs, rest) →
      s'.readNonce = s.readNonce + n := by
  intro n
  induction n with
  | zero => intro s input s' fs rest h; simp_all [readSeq]
  | succ n ih =>
    intro s input s' fs rest h
    unfold readSeq at h
    rcases hrf : ReadFrame s input with ⟨s₁, r⟩
    rw [hrf] at h
    cases r with
    | error e => simp at h
    | ok x =>
      obtain ⟨f, mid⟩ := x
      simp only at h
      rcases hseq : readSeq s₁ mid n with _ | ⟨s₂, fs₂, r₂⟩
      · rw [hseq] at h; simp at h
      · rw [hseq] at h
        simp only [Option.some.injEq, Prod.mk.injEq] at h
        have hs₁ := ReadFrame_ok_fst s s₁ input (f, mid) hrf
        have := ih s₁ mid s₂ fs₂ r₂ hseq
        rw [← h.1, this, hs₁]
        dsimp only
        omega

/-- Replaying the byte stream of an accepted frame on the same (advanced)
reader fails: the counter has moved, so the AEAD open rejects. -/
theorem ReadFrame_replay (s s₁ : Session) (input : List Nat) (x : Frame × List Nat)
    (h : ReadFrame s input = (s₁, Except.ok x)) :
    (ReadFrame s₁ input).2 = Except.error "decryption failed" := by
  have hs₁ := ReadFrame_ok_fst s s₁ input x h
  unfold ReadFrame at h
  by_cases h3 : input.length < 3
  · rw [if_pos h3] at h; simp at h
  rw [if_neg h3] at h
  by_cases hty : input.getD 2 0 ≠ FrameTypeData ∧ input.getD 2 0 ≠ FrameTypePadding ∧
      input.getD 2 0 ≠ FrameTypeTiming ∧ input.getD 2 0 ≠ FrameTypeClose
  · rw [if_pos hty] at h; simp at h
  rw [if_neg hty] at h
  by_cases hsh : (input.drop 3).length < fromBE (input.take 2)
  · rw [if_pos hsh] at h; simp at h
  rw [if_neg hsh] at h
  have hopen : ∃ payload, aeadOpen s.key (nonceBytes s.readNonce)
      ((input.drop 3).take (fromBE (input.take 2))) = some payload := by
    rcases hop : aeadOpen s.key (nonceBytes s.readNonce)
        ((input.drop 3).take (fromBE (input.take 2))) with _ | payload
    · rw [hop] at h; simp at h
    · exact ⟨payload, rfl⟩
  have hne : nonceBytes s.readNonce ≠ nonceBytes (s.readNonce + 1) := by
    intro he
    have := nonceBytes_inj he
    omega
  have hfail := aeadOpen_wrong_nonce s.key (nonceBytes s.readNonce)
    (nonceBytes (s.readNonce + 1)) ((input.drop 3).take (fromBE (input.take 2)))
    (nonceBytes_length _) (nonceBytes_length _) hne hopen
  unfold ReadFrame
  rw [if_neg h3, if_neg hty, if_neg hsh, hs₁]
  simp only
  rw [hfail]

/-! ### Substring search helpers (used to state the HTTP checks) -/

/-- `prefixMatch needle hay` is true when `needle` begins `hay`. -/
def prefixMatch [DecidableEq α] : List α → List α → Bool
  | [], _ => true
  | _ :: _, [] => false
  | a :: as, b :: bs => if a = b then prefixMatch as bs else false

/-- `containsSeq needle hay` is true when `needle` occurs contiguously
inside `hay` (the semantics of Go's `strings.Contains`/`bytes` search). -/
def containsSeq [DecidableEq α] (needle : List α) : List α → Bool
  | [] => prefixMatch needle []
  | b :: t => prefixMatch needle (b :: t) || containsSeq needle t

/-- String-level contiguous-substring test. -/
def containsStr (needle s : String) : Bool := containsSeq needle.toList s.toList

/-! ### Handshake (handshake.go)

`processHandshake` also generates the server X25519 keypair and derives
the session key before authenticating; those steps depend only on
external cryptographic libraries and cannot influence which branch is
taken, so the model records the observable part: the response bytes
written to the connection and the accept/reject result. On acceptance
the code writes the 200 response and enters `handleSession`. -/

def ReflexMagic : Nat := 0x5246584C
def ReflexMinHandshakeSize : Nat := 64
def MaxHandshakeSize : Nat := 1024

/-- Lowercase hex digit, as produced by `github.com/google/uuid`'s
`UUID.String`. -/
def hexDigit (n : Nat) : Char :=
  if n < 10 then Char.ofNat (48 + n) else Char.ofNat (87 + n)

def byteHexChars (b : Nat) : List Char := [hexDigit (b / 16 % 16), hexDigit (b % 16)]

def hexChars (bs : List Nat) : List Char := (bs.map byteHexChars).flatten

/-- Canonical rendering of 16 UUID bytes: lowercase hex in the
8-4-4-4-12 hyphenated form (`uuid.UUID.String()`). -/
def uuidString (bs : List Nat) : String :=
  String.mk (hexChars (bs.take 4) ++ '-' ::
    hexChars ((bs.drop 4).take 2) ++ '-' ::
    hexChars ((bs.drop 6).take 2) ++ '-' ::
    hexChars ((bs.drop 8).take 2) ++ '-' ::
    hexChars (bs.drop 10))

/-- Value of one hex digit, either letter case. -/
def hexVal (c : Char) : Option Nat :=
  if 48 ≤ c.toNat ∧ c.toNat ≤ 57 then some (c.toNat - 48)
  else if 97 ≤ c.toNat ∧ c.toNat ≤ 102 then some (c.toNat - 87)
  else if 65 ≤ c.toNat ∧ c.toNat ≤ 70 then some (c.toNat - 55)
  else none

def hexPairsToBytes : List Char → Option (List Nat)
  | [] => some []
  | [_] => none
  | c₁ :: c₂ :: rest =>
    match hexVal c₁, hexVal c₂, hexPairsToBytes rest with
    | some h, some l, some bs => some ((h * 16 + l) :: bs)
    | _, _, _ => none

/-- Modelled from the spec: the UUID validate/normalize step of §4.H
("Validate and normalize every client UUID (parse, canonicalize)"),
which is absent from `New` in the source and would be performed by the
external `github.com/google/uuid` package: accept the hyphenated
8-4-4-4-12 hex form in either letter case; return the canonical
lowercase rendering of the denoted 16 bytes. -/
def uuidParseCanonical (s : String) : Option String :=
  if s.toList.length = 36 ∧ s.toList.getD 8 ' ' = '-' ∧ s.toList.getD 13 ' ' = '-' ∧
      s.toList.getD 18 ' ' = '-' ∧ s.toList.getD 23 ' ' = '-' then
    match hexPairsToBytes (s.toList.filter (fun c => c ≠ '-')) with
    | some bs => if bs.length = 16 then some (uuidString bs) else none
    | none => none
  else none

/-- The handler state built by `New`: the stored `MemoryAccount.Id`
strings (in client order), the user→policy name map, and the optional
fallback destination port. -/
structure Handler where
  clients : List String
  userPolicies : List (String × String)
  fallback : Option Nat
deriving Repr, DecidableEq

/-- One entry of `config.Clients`. -/
structure ClientConfig where
  id : String
  policy : String
deriving Repr, DecidableEq

/-- `New`: each configured client is stored with `MemoryAccount{Id:
client.Id}` exactly as written in the config (no parsing or
canonicalization of the UUID string happens in the source); non-empty
policy names populate `userPolicies`; a present fallback stores its
destination port. -/
def New (clientsCfg : List ClientConfig) (fallbackDest : Option Nat) : Handler :=
  { clients := clientsCfg.map (fun c => c.id),
    userPolicies := (clientsCfg.filter (fun c => c.policy ≠ "")).map
      (fun c => (c.id, c.policy)),
    fallback := fallbackDest }

/-- `authenticateUser`: render the 16 wire bytes with `uuid.UUID.String()`
and return the first client whose stored `Id` is string-equal to it. -/
def authenticateUser (h : Handler) (userID : List Nat) : Option String :=
  h.clients.find? (fun id => id == uuidString userID)

def authFailedResponse : String :=
  "HTTP/1.1 403 Forbidden\r\nContent-Type: application/json\r\n\r\n\x7b\"error\":\"authentication failed\"\x7d"

def invalidTimestampResponse : String :=
  "HTTP/1.1 403 Forbidden\r\nContent-Type: application/json\r\n\r\n\x7b\"error\":\"invalid timestamp\"\x7d"

/-- `formatHTTPResponse`: the fixed HTTP-shaped 200 preamble. -/
def okResponse : String :=
  "HTTP/1.1 200 OK\r\nContent-Type: application/json\r\nContent-Length: 0\r\n\r\n"

/-- `processHandshake`, projected to (response written, result):
authenticate first; then check the ±300-second timestamp window; on
success write the 200 response (and continue into the session loop). -/
def processHandshake (h : Handler) (userID : List Nat) (ts now : Int) :
    String × Except String Unit :=
  match authenticateUser h userID with
  | none => (authFailedResponse, Except.error "user not found")
  | some _ =>
    if ts < now - 300 ∨ ts > now + 300 then
      (invalidTimestampResponse, Except.error "timestamp out of range")
    else (okResponse, Except.ok ())

/-! ### Demultiplexer (inbound.go Process) -/

/-- `isHTTPPostLike`: at least 4 bytes, starting with `POST`, with
`HTTP/` somewhere in the first `min(len, 64)` bytes. -/
def isHTTPPostLike (data : List Nat) : Bool :=
  if data.length < 4 then false
  else if data.take 4 ≠ [80, 79, 83, 84] then false
  else containsSeq [72, 84, 84, 80, 47] (data.take 64)

/-- Where `Process` routes a connection. -/
inductive Route
  | peekError
  | fallbackSplice
  | magicHandshake
  | httpHandshake
deriving Repr, DecidableEq

/-- `Peek(ReflexMinHandshakeSize)` on the buffered reader: fails when
the connection yields fewer than 64 bytes (EOF or I/O error), otherwise
returns the first 64 bytes without consuming them. -/
def processPeek (stream : List Nat) : Option (List Nat) :=
  if stream.length < ReflexMinHandshakeSize then none
  else some (stream.take ReflexMinHandshakeSize)

/-- The classification of `Process` applied to the peeked bytes. -/
def classifyPeeked (peeked : List Nat) : Route :=
  if 4 ≤ peeked.length ∧ fromBE (peeked.take 4) = ReflexMagic then
    Route.magicHandshake
  else if isHTTPPostLike peeked then Route.httpHandshake
  else Route.fallbackSplice

/-- `Handler.Process`: peek 64 bytes; on failure go to the fallback when
one is configured and otherwise return the peek error; otherwise
classify on the peeked bytes. -/
def Process (hasFallback : Bool) (stream : List Nat) : Route :=
  match processPeek stream with
  | none => if hasFallback then Route.fallbackSplice else Route.peekError
  | some peeked => classifyPeeked peeked

/-- What each route ultimately does. `handleReflexHTTP` is a placeholder
whose whole body delegates to `handleFallback`, so the HTTP-wrapped
route resolves to the fallback splicer. -/
inductive Outcome
  | fallback
  | peekErrorReturn
  | magicHandshake
deriving Repr, DecidableEq

def routeOutcome : Route → Outcome
  | Route.peekError => Outcome.peekErrorReturn
  | Route.fallbackSplice => Outcome.fallback
  | Route.magicHandshake => Outcome.magicHandshake
  | Route.httpHandshake => Outcome.fallback

/-! ### Fallback splicer (fallback.go)

The buffered reader holds the bytes consumed from the connection during
`Peek` in `buffered`; `rest` is what the client stream still has. The
`preloadedConn` wrapper reads through the buffered reader (never the raw
connection), so the cover server receives the buffered bytes first and
then the remainder — the bytes `buf.Copy` delivers are exactly
`buffered ++ rest`. -/

structure BufReader where
  buffered : List Nat
  rest : List Nat
deriving Repr, DecidableEq

def mkBufReader (stream : List Nat) : BufReader := ⟨[], stream⟩

/-- `bufio.Reader.Peek n`: return the first `n` bytes without consuming
them, pulling them into the buffer; error when fewer are available. -/
def bufPeek (n : Nat) (r : BufReader) : Option (List Nat) × BufReader :=
  if n ≤ r.buffered.length then (some (r.buffered.take n), r)
  else if r.buffered.length + r.rest.length < n then
    (none, ⟨r.buffered ++ r.rest, []⟩)
  else
    (some (r.buffered ++ r.rest.take (n - r.buffered.length)),
     ⟨r.buffered ++ r.rest.take (n - r.buffered.length),
      r.rest.drop (n - r.buffered.length)⟩)

/-- Everything `preloadedConn.Read` yields until EOF: the buffered
(peeked) bytes, then the remainder of the client stream. This is the
byte stream `handleFallback` copies to the cover server. -/
def preloadedConnReadAll (r : BufReader) : List Nat := r.buffered ++ r.rest

/-! ### Destination parser (data.go) -/

inductive Address
  | ipv4 (bytes : List Nat)
  | ipv6 (bytes : List Nat)
  | domain (name : List Nat)
deriving Repr, DecidableEq

structure Destination where
  address : Address
  port : Nat
deriving Repr, DecidableEq

/-- `parseDestination`: `[type(1)] [addr 4|16|len(1)+domain] [port be16]`
(the Go `switch` on the address type is written as an if-chain). -/
def parseDestination (data : List Nat) : Except String Destination :=
  if data.length < 3 then Except.error "destination data too short"
  else if data.getD 0 0 = 1 then
    if data.length < 7 then Except.error "invalid IPv4 address"
    else Except.ok ⟨Address.ipv4 ((data.drop 1).take 4), fromBE ((data.drop 5).take 2)⟩
  else if data.getD 0 0 = 2 then
    if data.length < 19 then Except.error "invalid IPv6 address"
    else Except.ok ⟨Address.ipv6 ((data.drop 1).take 16), fromBE ((data.drop 17).take 2)⟩
  else if data.getD 0 0 = 3 then
    if data.length < 2 then Except.error "invalid domain name length"
    else if data.length < 4 + data.getD 1 0 then Except.error "invalid domain name"
    else Except.ok ⟨Address.domain ((data.drop 2).take (data.getD 1 0)),
      fromBE ((data.drop (2 + data.getD 1 0)).take 2)⟩
  else Except.error "unknown address type"

/-- `getDestinationLength`: header length by address type, 0 when the
type is unknown or the domain length byte is missing. -/
def getDestinationLength (data : List Nat) : Nat :=
  if data.length < 1 then 0
  else if data.getD 0 0 = 1 then 7
  else if data.getD 0 0 = 2 then 19
  else if data.getD 0 0 = 3 then
    if data.length < 2 then 0 else 4 + data.getD 1 0
  else 0

/-! ### Traffic profile overrides (morphing.go)

`GetPacketSize`/`GetDelay` first consult the one-shot override (used
only when strictly positive, then reset to 0) and otherwise sample the
weighted distribution by cumulative-weight roulette over `float64`
weights. The sampled value is abstracted as the oracle argument `draw`:
the model keeps the override logic bit-faithful and treats the
distribution draw as an input. Sizes and delays are Go `int` /
`time.Duration` (signed), hence `Int`. -/

structure TrafficProfile where
  nextPacketSize : Int
  nextDelay : Int
deriving Repr, DecidableEq

def GetPacketSize (p : TrafficProfile) (draw : Int) : Int × TrafficProfile :=
  if p.nextPacketSize > 0 then (p.nextPacketSize, { p with nextPacketSize := 0 })
  else (draw, p)

def GetDelay (p : TrafficProfile) (draw : Int) : Int × TrafficProfile :=
  if p.nextDelay > 0 then (p.nextDelay, { p with nextDelay := 0 })
  else (draw, p)

def SetNextPacketSize (p : TrafficProfile) (size : Int) : TrafficProfile :=
  { p with nextPacketSize := size }

def SetNextDelay (p : TrafficProfile) (delay : Int) : TrafficProfile :=
  { p with nextDelay := delay }

/-! ### Morphing writer (morphing.go)

`WriteFrameWithMorphing` samples a target via `profile.GetPacketSize()`
on every invocation (also for the first chunk of a split, since
`writeFrameChunk` calls straight back into `WriteFrameWithMorphing`).
The successive sampled targets are supplied as the `targets` list and
the random bytes `AddPadding` draws from `crypto/rand` as `padStream`;
`fuel` bounds the recursion depth (the Go code recurses without bound
and terminates because profile sizes are positive). The leaf case —
pad, take-and-increment the write nonce, seal, reject ciphertexts over
65535 bytes, emit `length || type || ciphertext` — is textually the
body of `WriteFrame`, which the model therefore reuses; the trailing
`GetDelay`/`time.Sleep` shapes timing only and has no effect on the
bytes, so it is not modelled. Results: wire frames, the plaintext
chunks that were sealed, and the unconsumed targets and pad bytes. -/

/-- `AddPadding data target pad`: truncate to `target` when already at
least that long, otherwise append `target - len` random bytes. -/
def AddPadding (data : List Nat) (targetSize : Nat) (padBytes : List Nat) : List Nat :=
  if targetSize ≤ data.length then data.take targetSize
  else data ++ padBytes.take (targetSize - data.length)

def writeMorph : Nat → Session → Nat → List Nat → List Nat → List Nat →
    Session × Except String (List (List Nat) × List (List Nat) × List Nat × List Nat)
  | 0, s, _, _, _, _ => (s, Except.error "morphing recursion exhausted")
  | _ + 1, s, _, _, [], _ => (s, Except.error "no packet size sample")
  | fuel + 1, s, ft, data, t :: ts, pad =>
    if data.length > t then
      match writeMorph fuel s ft (data.take t) ts pad with
      | (s₁, Except.error e) => (s₁, Except.error e)
      | (s₁, Except.ok (f₁, c₁, ts₁, p₁)) =>
        match writeMorph fuel s₁ ft (data.drop t) ts₁ p₁ with
        | (s₂, Except.error e) => (s₂, Except.error e)
        | (s₂, Except.ok (f₂, c₂, ts₂, p₂)) =>
          (s₂, Except.ok (f₁ ++ f₂, c₁ ++ c₂, ts₂, p₂))
    else if pad.length < t - data.length then
      (s, Except.error "pad supply exhausted")
    else
      match WriteFrame s ft (AddPadding data t pad) with
      | (s', Except.error e) => (s', Except.error e)
      | (s', Except.ok w) =>
        (s', Except.ok ([w], [AddPadding data t pad], ts, pad.drop (t - data.length)))

theorem AddPadding_of_le (data : List Nat) (t : Nat) (pad : List Nat)
    (h : data.length ≤ t) :
    AddPadding data t pad = data ++ pad.take (t - data.length) := by
  unfold AddPadding
  by_cases ht : t ≤ data.length
  · have heq : t = data.length := le_antisymm ht h
    rw [if_pos ht, heq, Nat.sub_self, List.take_zero, List.append_nil, List.take_length]
  · rw [if_neg ht]

theorem AddPadding_length_of_le (data : List Nat) (t : Nat) (pad : List Nat)
    (h : data.length ≤ t) (hp : t - data.length ≤ pad.length) :
    (AddPadding data t pad).length = t := by
  rw [AddPadding_of_le data t pad h]
  simp only [List.length_append, List.length_take]
  omega

/-- Structure of a successful morphing run: as many wire frames as
plaintext chunks; every chunk is a contiguous segment of the input
followed by its padding, the segments concatenating back to the input;
every chunk length is one of the sampled targets; the unconsumed
targets are a suffix of the supplied ones. -/
theorem writeMorph_decomp :
    ∀ (fuel : Nat) (s : Session) (ft : Nat) (data targets pad : List Nat)
      (s' : Session) (frames chunks : List (List Nat)) (ts' pad' : List Nat),
      writeMorph fuel s ft data targets pad =
        (s', Except.ok (frames, chunks, ts', pad')) →
      frames.length = chunks.length ∧
      (∃ segs pads : List (List Nat),
        segs.length = chunks.length ∧ pads.length = chunks.length ∧
        chunks = List.zipWith (fun a b => a ++ b) segs pads ∧
        segs.flatten = data) ∧
      (∀ c ∈ chunks, ∃ t ∈ targets, c.length = t) ∧
      (∃ pre, targets = pre ++ ts') := by
  intro fuel
  induction fuel with
  | zero =>
    intro s ft data targets pad s' frames chunks ts' pad' h
    exact absurd h (by simp [writeMorph])
  | succ fuel ih =>
    intro s ft data targets pad s' frames chunks ts' pad' h
    match targets with
    | [] => exact absurd h (by simp [writeMorph])
    | t :: ts =>
      simp only [writeMorph] at h
      by_cases hgt : data.length > t
      · rw [if_pos hgt] at h
        rcases h₁ : writeMorph fuel s ft (data.take t) ts pad with ⟨s₁, r₁⟩
        rw [h₁] at h
        cases r₁ with
        | error e => simp at h
        | ok q₁ =>
          obtain ⟨f₁, c₁, ts₁, p₁⟩ := q₁
          simp only at h
          rcases h₂ : writeMorph fuel s₁ ft (data.drop t) ts₁ p₁ with ⟨s₂, r₂⟩
          rw [h₂] at h
          cases r₂ with
          | error e => simp at h
          | ok q₂ =>
            obtain ⟨f₂, c₂, ts₂, p₂⟩ := q₂
            simp only [Prod.mk.injEq, Except.ok.injEq] at h
            obtain ⟨hs, hf, hc, hts, hp⟩ := h
            obtain ⟨hl₁, ⟨segs₁, pads₁, hsl₁, hpl₁, hz₁, hj₁⟩, hmem₁, pre₁, hpre₁⟩ :=
              ih s ft (data.take t) ts pad s₁ f₁ c₁ ts₁ p₁ h₁
            obtain ⟨hl₂, ⟨segs₂, pads₂, hsl₂, hpl₂, hz₂, hj₂⟩, hmem₂, pre₂, hpre₂⟩ :=
              ih s₁ ft (data.drop t) ts₁ p₁ s₂ f₂ c₂ ts₂ p₂ h₂
            subst hf hc hts
            refine ⟨by simp [hl₁, hl₂], ⟨segs₁ ++ segs₂, pads₁ ++ pads₂, ?_, ?_, ?_, ?_⟩,
              ?_, ?_⟩
            · simp [hsl₁, hsl₂]
            · simp [hpl₁, hpl₂]
            · rw [List.zipWith_append _ _ _ _ _ (by rw [hsl₁, hpl₁]), hz₁, hz₂]
            · rw [List.flatten_append, hj₁, hj₂, List.take_append_drop]
            · intro c hc
              rcases List.mem_append.mp hc with hcm | hcm
              · obtain ⟨u, hu, hlen⟩ := hmem₁ c hcm
                exact ⟨u, List.mem_cons_of_mem t hu, hlen⟩
              · obtain ⟨u, hu, hlen⟩ := hmem₂ c hcm
                have : u ∈ ts := by rw [hpre₁]; exact List.mem_append_right pre₁ hu
                exact ⟨u, List.mem_cons_of_mem t this, hlen⟩
            · exact ⟨t :: pre₁ ++ pre₂, by simp [hpre₁, hpre₂]⟩
      · rw [if_neg hgt] at h
        by_cases hps : pad.length < t - data.length
        · rw [if_pos hps] at h; simp at h
        · rw [if_neg hps] at h
          rcases hwf : WriteFrame s ft (AddPadding data t pad) with ⟨sw, rw'⟩
          rw [hwf] at h
          cases rw' with
          | error e => simp at h
          | ok w =>
            simp only [Prod.mk.injEq, Except.ok.injEq] at h
            obtain ⟨hs, hf, hc, hts, hp⟩ := h
            subst hf hc hts
            have hle : data.length ≤ t := by omega
            have hpadlen : t - data.length ≤ pad.length := by omega
            refine ⟨rfl, ⟨[data], [pad.take (t - data.length)], rfl, rfl, ?_, by simp⟩,
              ?_, ⟨[t], rfl⟩⟩
            · simp [AddPadding_of_le data t pad hle]
            · intro c hcm
              simp only [List.mem_singleton] at hcm
              subst hcm
              exact ⟨t, List.mem_cons_self t ts,
                AddPadding_length_of_le data t pad hle hpadlen⟩

theorem flatten_length_le_zipWith (segs : List (List Nat)) :
    ∀ pads : List (List Nat), segs.length = pads.length →
      segs.flatten.length ≤
        ((List.zipWith (fun a b => a ++ b) segs pads).map List.length).sum := by
  induction segs with
  | nil => intro pads h; simp
  | cons sg sgs ih =>
    intro pads h
    cases pads with
    | nil => simp at h
    | cons pd pds =>
      simp only [List.zipWith_cons_cons, List.map_cons, List.sum_cons,
        List.flatten_cons, List.length_append]
      have := ih pds (by simpa using h)
      omega

theorem sum_le_length_mul (l : List Nat) (T : Nat) (h : ∀ x ∈ l, x ≤ T) :
    l.sum ≤ l.length * T := by
  induction l with
  | nil => simp
  | cons a l ih =>
    simp only [List.sum_cons, List.length_cons]
    have ha := h a (List.mem_cons_self a l)
    have := ih (fun x hx => h x (List.mem_cons_of_mem a hx))
    calc a + l.sum ≤ T + l.length * T := by omega
    _ = (l.length + 1) * T := by ring

/-- Frame-count bound: a successful run emits at least
`⌈data.length / T⌉` frames when every sampled target is at most `T`. -/
theorem writeMorph_count (fuel : Nat) (s : Session) (ft : Nat)
    (data targets pad : List Nat) (s' : Session)
    (frames chunks : List (List Nat)) (ts' pad' : List Nat) (T : Nat)
    (hT : ∀ t ∈ targets, t ≤ T)
    (h : writeMorph fuel s ft data targets pad =
      (s', Except.ok (frames, chunks, ts', pad'))) :
    data.length ≤ frames.length * T := by
  obtain ⟨hfl, ⟨segs, pads, hsl, hpl, hz, hj⟩, hmem, _⟩ :=
    writeMorph_decomp fuel s ft data targets pad s' frames chunks ts' pad' h
  have h₁ : data.length ≤ (chunks.map List.length).sum := by
    have hflat := flatten_length_le_zipWith segs pads (by omega)
    rw [hj, ← hz] at hflat
    exact hflat
  have h₂ : (chunks.map List.length).sum ≤ chunks.length * T := by
    have hall : ∀ x ∈ chunks.map List.length, x ≤ T := by
      intro x hx
      obtain ⟨c, hcm, hcx⟩ := List.mem_map.mp hx
      obtain ⟨t, htm, hct⟩ := hmem c hcm
      have hle := hT t htm
      omega
    have := sum_le_length_mul (chunks.map List.length) T hall
    simpa using this
  rw [hfl]
  omega

/-! ## Claim theorems -/

/-- C1: for every plaintext `p` with `len(p) ≤ 65519` and frame type
`t ∈ {1,2,3,4}`, writing on a fresh session and reading the written wire
bytes on another fresh session with the same 32-byte key succeeds and
returns a frame with `Type = t` and `Payload = p`. -/
theorem c1_roundtrip_framing (key : List Nat) (t : Nat) (p : List Nat)
    (sw sr : Session)
    (hw : NewSession key = Except.ok sw) (hr : NewSession key = Except.ok sr)
    (ht : t = 1 ∨ t = 2 ∨ t = 3 ∨ t = 4)
    (hp : Bytes p) (hlen : p.length ≤ 65519) :
    ∃ w : List Nat, (WriteFrame sw t p).2 = Except.ok w ∧
      ∃ s' : Session, ReadFrame sr w = (s', Except.ok (⟨p.length + 16, t, p⟩, [])) := by
  have hsw : sw = { key := key, readNonce := 0, writeNonce := 0 } := by
    unfold NewSession at hw
    split at hw
    · exact (Except.ok.inj hw).symm
    · exact absurd hw (by simp)
  have hsr : sr = { key := key, readNonce := 0, writeNonce := 0 } := by
    unfold NewSession at hr
    split at hr
    · exact (Except.ok.inj hr).symm
    · exact absurd hr (by simp)
  refine ⟨beBytes 2 (p.length + 16) ++ [t % 256] ++
    aeadSeal sw.key (nonceBytes sw.writeNonce) p, by rw [WriteFrame_eq sw t p hlen], ?_⟩
  refine ⟨{ sr with readNonce := sr.readNonce + 1 }, ?_⟩
  exact ReadFrame_of_WriteFrame sw sr t p _ (by rw [hsw, hsr]) (by rw [hsw, hsr]) ht hp hlen
    (by rw [WriteFrame_eq sw t p hlen])

theorem c1_witness :
    NewSession (List.replicate 32 0) =
      Except.ok { key := List.replicate 32 0, readNonce := 0, writeNonce := 0 } ∧
    (1 = 1 ∨ 1 = 2 ∨ 1 = 3 ∨ 1 = 4) ∧ Bytes [7] ∧ ([7] : List Nat).length ≤ 65519 ∧
    ∃ w : List Nat,
      (WriteFrame { key := List.replicate 32 0, readNonce := 0, writeNonce := 0 } 1 [7]).2 =
        Except.ok w ∧
      ∃ s' : Session,
        ReadFrame { key := List.replicate 32 0, readNonce := 0, writeNonce := 0 } w =
          (s', Except.ok (⟨1 + 16, 1, [7]⟩, [])) :=
  ⟨by rfl, Or.inl rfl, by decide, by decide,
    c1_roundtrip_framing (List.replicate 32 0) 1 [7] _ _ (by rfl) (by rfl)
      (Or.inl rfl) (by decide) (by decide)⟩

/-- C2: starting from a fresh session, after `n` successful `WriteFrame`
calls the write counter is `n` and after `n` successful `ReadFrame`
calls the read counter is `n`; a frame is sealed with the 12-byte nonce
`zeros(4) ++ be64(counter)`; and re-feeding the wire bytes of an
accepted frame to the same reader fails with a decryption error. -/
theorem c2_monotonic_nonces (key : List Nat) (s : Session)
    (hs : NewSession key = Except.ok s) :
    (∀ (ops : List (Nat × List Nat)) (s' : Session) (outs : List (List Nat)),
      writeSeq s ops = some (s', outs) → s'.writeNonce = ops.length) ∧
    (∀ (input : List Nat) (n : Nat) (s' : Session) (fs : List Frame) (rest : List Nat),
      readSeq s input n = some (s', fs, rest) → s'.readNonce = n) ∧
    (∀ (s₀ : Session) (t : Nat) (p : List Nat), p.length ≤ 65519 →
      (WriteFrame s₀ t p).2 = Except.ok (beBytes 2 (p.length + 16) ++ [t % 256] ++
        aeadSeal s₀.key (List.replicate 4 0 ++ beBytes 8 s₀.writeNonce) p)) ∧
    (∀ (s₀ s₁ : Session) (input : List Nat) (x : Frame × List Nat),
      ReadFrame s₀ input = (s₁, Except.ok x) →
      (ReadFrame s₁ input).2 = Except.error "decryption failed") := by
  have hszero : s.writeNonce = 0 ∧ s.readNonce = 0 := by
    unfold NewSession at hs
    split at hs
    · have := (Except.ok.inj hs).symm
      rw [this]
      exact ⟨rfl, rfl⟩
    · exact absurd hs (by simp)
  refine ⟨?_, ?_, ?_, ?_⟩
  · intro ops s' outs h
    have := writeSeq_writeNonce ops s s' outs h
    omega
  · intro input n s' fs rest h
    have := readSeq_readNonce n s input s' fs rest h
    omega
  · intro s₀ t p hlen
    rw [WriteFrame_eq s₀ t p hlen]
    rfl
  · intro s₀ s₁ input x h
    exact ReadFrame_replay s₀ s₁ input x h

theorem c2_witness :
    NewSession (List.replicate 32 2) =
      Except.ok { key := List.replicate 32 2, readNonce := 0, writeNonce := 0 } ∧
    ((∀ (ops : List (Nat × List Nat)) (s' : Session) (outs : List (List Nat)),
      writeSeq { key := List.replicate 32 2, readNonce := 0, writeNonce := 0 } ops =
        some (s', outs) → s'.writeNonce = ops.length) ∧
    (∀ (input : List Nat) (n : Nat) (s' : Session) (fs : List Frame) (rest : List Nat),
      readSeq { key := List.replicate 32 2, readNonce := 0, writeNonce := 0 } input n =
        some (s', fs, rest) → s'.readNonce = n) ∧
    (∀ (s₀ : Session) (t : Nat) (p : List Nat), p.length ≤ 65519 →
      (WriteFrame s₀ t p).2 = Except.ok (beBytes 2 (p.length + 16) ++ [t % 256] ++
        aeadSeal s₀.key (List.replicate 4 0 ++ beBytes 8 s₀.writeNonce) p)) ∧
    (∀ (s₀ s₁ : Session) (input : List Nat) (x : Frame × List Nat),
      ReadFrame s₀ input = (s₁, Except.ok x) →
      (ReadFrame s₁ input).2 = Except.error "decryption failed")) :=
  ⟨by rfl, c2_monotonic_nonces (List.replicate 32 2) _ (by rfl)⟩

/-- Reduce `processHandshake` when authentication fails. -/
theorem processHandshake_auth_failed (h : Handler) (userID : List Nat) (ts now : Int)
    (hfind : h.clients.find? (fun id => id == uuidString userID) = none) :
    processHandshake h userID ts now =
      (authFailedResponse, Except.error "user not found") := by
  unfold processHandshake authenticateUser
  rw [hfind]

/-- Reduce `processHandshake` when authentication succeeds. -/
theorem processHandshake_auth_ok (h : Handler) (userID : List Nat) (ts now : Int)
    (u : String)
    (hfind : h.clients.find? (fun id => id == uuidString userID) = some u) :
    processHandshake h userID ts now =
      (if ts < now - 300 ∨ ts > now + 300 then
        (invalidTimestampResponse, Except.error "timestamp out of range")
      else (okResponse, Except.ok ())) := by
  unfold processHandshake authenticateUser
  rw [hfind]

/-- C3: authentication is checked before the timestamp window. An
unknown UUID gets the 403 `authentication failed` cover response and a
failure, for every timestamp (also out-of-window ones); a known UUID
with `|now - ts| > 300` gets the 403 `invalid timestamp` cover response
and fails with `timestamp out of range`; a known UUID inside the window
is rejected on neither ground (the 200 response is written). -/
theorem c3_auth_before_timestamp (h : Handler) (userID : List Nat) (ts now : Int) :
    (uuidString userID ∉ h.clients →
      containsStr "403 Forbidden" (processHandshake h userID ts now).1 = true ∧
      containsStr "\x7b\"error\":\"authentication failed\"\x7d"
        (processHandshake h userID ts now).1 = true ∧
      (processHandshake h userID ts now).2 = Except.error "user not found") ∧
    (uuidString userID ∈ h.clients → 300 < (now - ts).natAbs →
      containsStr "403 Forbidden" (processHandshake h userID ts now).1 = true ∧
      containsStr "\x7b\"error\":\"invalid timestamp\"\x7d"
        (processHandshake h userID ts now).1 = true ∧
      (processHandshake h userID ts now).2 = Except.error "timestamp out of range") ∧
    (uuidString userID ∈ h.clients → (now - ts).natAbs ≤ 300 →
      processHandshake h userID ts now = (okResponse, Except.ok ())) := by
  refine ⟨?_, ?_, ?_⟩
  · intro hmem
    have hfind : h.clients.find? (fun id => id == uuidString userID) = none := by
      rw [List.find?_eq_none]
      intro x hx
      simp only [beq_iff_eq]
      intro hxe
      exact hmem (hxe ▸ hx)
    rw [processHandshake_auth_failed h userID ts now hfind]
    exact ⟨by decide, by decide, rfl⟩
  · intro hmem hwin
    rcases hfind : h.clients.find? (fun id => id == uuidString userID) with _ | u
    · exfalso
      rw [List.find?_eq_none] at hfind
      exact hfind _ hmem (by simp)
    · rw [processHandshake_auth_ok h userID ts now u hfind, if_pos (by omega)]
      exact ⟨by decide, by decide, rfl⟩
  · intro hmem hwin
    rcases hfind : h.clients.find? (fun id => id == uuidString userID) with _ | u
    · exfalso
      rw [List.find?_eq_none] at hfind
      exact hfind _ hmem (by simp)
    · rw [processHandshake_auth_ok h userID ts now u hfind, if_neg (by omega)]

theorem c3_witness :
    ("00000000-0000-0000-0000-000000000000" ∉
      (Handler.mk ["11111111-1111-1111-1111-111111111111"] [] none).clients) ∧
    (uuidString (List.replicate 16 0) = "00000000-0000-0000-0000-000000000000") ∧
    ("11111111-1111-1111-1111-111111111111" ∈
      (Handler.mk ["11111111-1111-1111-1111-111111111111"] [] none).clients) ∧
    (uuidString (List.replicate 16 17) = "11111111-1111-1111-1111-111111111111") ∧
    ((processHandshake (Handler.mk ["11111111-1111-1111-1111-111111111111"] [] none)
        (List.replicate 16 0) 1000 2000).2 = Except.error "user not found") ∧
    ((processHandshake (Handler.mk ["11111111-1111-1111-1111-111111111111"] [] none)
        (List.replicate 16 17) 1000 2000).2 = Except.error "timestamp out of range") ∧
    (processHandshake (Handler.mk ["11111111-1111-1111-1111-111111111111"] [] none)
        (List.replicate 16 17) 1900 2000 = (okResponse, Except.ok ())) :=
  ⟨by decide, by decide, by decide, by decide,
    ((c3_auth_before_timestamp
      (Handler.mk ["11111111-1111-1111-1111-111111111111"] [] none)
      (List.replicate 16 0) 1000 2000).1 (by decide)).2.2,
    ((c3_auth_before_timestamp
      (Handler.mk ["11111111-1111-1111-1111-111111111111"] [] none)
      (List.replicate 16 17) 1000 2000).2.1 (by decide) (by decide)).2.2,
    (c3_auth_before_timestamp
      (Handler.mk ["11111111-1111-1111-1111-111111111111"] [] none)
      (List.replicate 16 17) 1900 2000).2.2 (by decide) (by decide)⟩

/-- Reduce `Process` when the stream cannot fill the 64-byte peek. -/
theorem Process_peek_fail (fb : Bool) (stream : List Nat)
    (h : stream.length < 64) :
    Process fb stream = if fb then Route.fallbackSplice else Route.peekError := by
  unfold Process processPeek ReflexMinHandshakeSize
  rw [if_pos h]

/-- Reduce `Process` when the peek succeeds. -/
theorem Process_peek_ok (fb : Bool) (stream : List Nat)
    (h : ¬ stream.length < 64) :
    Process fb stream = classifyPeeked (stream.take 64) := by
  unfold Process processPeek ReflexMinHandshakeSize
  rw [if_neg h]

/-- C4: `Process` peeks 64 bytes. A failed peek routes to the fallback
splicer when one is configured and otherwise returns the peek error;
first four bytes `RFXL` (0x5246584C) invoke the magic handshake;
otherwise `POST` + `HTTP/` within the first 64 bytes invokes the
HTTP-wrapped handshake handler, which delegates to the fallback
splicer; anything else goes to the fallback splicer. -/
theorem c4_process_classification (fb : Bool) (stream : List Nat) :
    ReflexMinHandshakeSize = 64 ∧
    (stream.length < 64 →
      Process fb stream = if fb then Route.fallbackSplice else Route.peekError) ∧
    (64 ≤ stream.length → stream.take 4 = [0x52, 0x46, 0x58, 0x4C] →
      Process fb stream = Route.magicHandshake) ∧
    (64 ≤ stream.length → fromBE (stream.take 4) ≠ ReflexMagic →
      isHTTPPostLike (stream.take 64) = true →
      Process fb stream = Route.httpHandshake ∧
      routeOutcome Route.httpHandshake = Outcome.fallback) ∧
    (64 ≤ stream.length → fromBE (stream.take 4) ≠ ReflexMagic →
      isHTTPPostLike (stream.take 64) = false →
      Process fb stream = Route.fallbackSplice) := by
  have htt : (stream.take 64).take 4 = stream.take 4 := by
    rw [List.take_take]
    norm_num
  refine ⟨rfl, fun hshort => Process_peek_fail fb stream hshort, ?_, ?_, ?_⟩
  · intro hlong hmagic
    rw [Process_peek_ok fb stream (by omega)]
    unfold classifyPeeked
    have hcond : 4 ≤ (stream.take 64).length ∧
        fromBE ((stream.take 64).take 4) = ReflexMagic := by
      refine ⟨by simp only [List.length_take]; omega, ?_⟩
      rw [htt, hmagic]
      decide
    rw [if_pos hcond]
  · intro hlong hmagic hpost
    rw [Process_peek_ok fb stream (by omega)]
    unfold classifyPeeked
    rw [if_neg (by rw [htt]; exact fun hc => hmagic hc.2), if_pos hpost]
    exact ⟨rfl, rfl⟩
  · intro hlong hmagic hpost
    rw [Process_peek_ok fb stream (by omega)]
    unfold classifyPeeked
    rw [if_neg (by rw [htt]; exact fun hc => hmagic hc.2),
      if_neg (by rw [hpost]; simp)]

theorem c4_witness :
    (([6] : List Nat).length < 64) ∧
    (Process true [6] = if true then Route.fallbackSplice else Route.peekError) ∧
    (Process false [6] = if false then Route.fallbackSplice else Route.peekError) ∧
    (64 ≤ (82 :: 70 :: 88 :: 76 :: List.replicate 60 0).length ∧
      Process true (82 :: 70 :: 88 :: 76 :: List.replicate 60 0) =
        Route.magicHandshake) ∧
    (isHTTPPostLike ((80 :: 79 :: 83 :: 84 :: 72 :: 84 :: 84 :: 80 :: 47 ::
        List.replicate 55 32).take 64) = true ∧
      Process true (80 :: 79 :: 83 :: 84 :: 72 :: 84 :: 84 :: 80 :: 47 ::
        List.replicate 55 32) = Route.httpHandshake ∧
      routeOutcome Route.httpHandshake = Outcome.fallback) ∧
    Process true (71 :: 69 :: 84 :: 32 :: List.replicate 60 32) =
      Route.fallbackSplice :=
  ⟨by decide,
   (c4_process_classification true [6]).2.1 (by decide),
   (c4_process_classification false [6]).2.1 (by decide),
   ⟨by decide,
    (c4_process_classification true
      (82 :: 70 :: 88 :: 76 :: List.replicate 60 0)).2.2.1 (by decide) (by decide)⟩,
   ⟨by decide,
    ((c4_process_classification true (80 :: 79 :: 83 :: 84 :: 72 :: 84 :: 84 :: 80 ::
        47 :: List.replicate 55 32)).2.2.2.1 (by decide) (by decide) (by decide)).1,
    ((c4_process_classification true (80 :: 79 :: 83 :: 84 :: 72 :: 84 :: 84 :: 80 ::
        47 :: List.replicate 55 32)).2.2.2.1 (by decide) (by decide) (by decide)).2⟩,
   (c4_process_classification true
     (71 :: 69 :: 84 :: 32 :: List.replicate 60 32)).2.2.2.2
       (by decide) (by decide) (by decide)⟩

/-- C5: routing to the fallback delivers to the cover server exactly the
original client byte stream from offset 0: peeking moves bytes into the
buffer without losing any, and `preloadedConn` reads the buffered bytes
first and then the rest, so what the splicer copies is the whole
original stream, unmodified. -/
theorem c5_fallback_transparency (n : Nat) (stream : List Nat) :
    (∀ r : BufReader,
      preloadedConnReadAll (bufPeek n r).2 = preloadedConnReadAll r) ∧
    preloadedConnReadAll (bufPeek 64 (mkBufReader stream)).2 = stream := by
  have hgen : ∀ (m : Nat) (r : BufReader),
      preloadedConnReadAll (bufPeek m r).2 = preloadedConnReadAll r := by
    intro m r
    unfold bufPeek preloadedConnReadAll
    by_cases h₁ : m ≤ r.buffered.length
    · rw [if_pos h₁]
    · rw [if_neg h₁]
      by_cases h₂ : r.buffered.length + r.rest.length < m
      · rw [if_pos h₂]
        simp
      · rw [if_neg h₂]
        simp only
        rw [List.append_assoc, List.take_append_drop]
  exact ⟨hgen n, by rw [hgen 64 (mkBufReader stream)]; rfl⟩

/-- C6 (corrected): `New` stores each configured `Id` string verbatim in
the `MemoryAccount` — no parsing or canonicalization — and a handshake
carrying raw UUID bytes authenticates exactly when the canonical
lowercase rendering of those bytes is string-equal to a stored `Id`. -/
theorem c6_uuid_storage (clientsCfg : List ClientConfig) (fallbackDest : Option Nat) :
    (New clientsCfg fallbackDest).clients = clientsCfg.map (fun c => c.id) ∧
    ∀ userID : List Nat,
      ((authenticateUser (New clientsCfg fallbackDest) userID).isSome = true ↔
        uuidString userID ∈ clientsCfg.map (fun c => c.id)) := by
  refine ⟨rfl, ?_⟩
  intro userID
  unfold authenticateUser New
  simp only [List.find?_isSome, beq_iff_eq]
  constructor
  · rintro ⟨x, hx, hxe⟩
    exact hxe ▸ hx
  · intro hmem
    exact ⟨uuidString userID, hmem, rfl⟩

/-- C6 counterexample: the claim says any valid spelling of the UUID in
the config authenticates the raw bytes. With the uppercase spelling
`…AB` (which the spec-modelled canonicalizer accepts and normalizes),
the wire bytes render to the lowercase `…ab`, string comparison fails,
and authentication is refused — because `New` stored the string
verbatim instead of canonicalizing it. -/
theorem c6_counterexample :
    uuidParseCanonical "10000000-2000-4000-8000-0000000000AB" =
      some "10000000-2000-4000-8000-0000000000ab" ∧
    uuidString [16, 0, 0, 0, 32, 0, 64, 0, 128, 0, 0, 0, 0, 0, 0, 171] =
      "10000000-2000-4000-8000-0000000000ab" ∧
    (New [ClientConfig.mk "10000000-2000-4000-8000-0000000000AB" ""] none).clients =
      ["10000000-2000-4000-8000-0000000000AB"] ∧
    authenticateUser (New [ClientConfig.mk "10000000-2000-4000-8000-0000000000AB" ""] none)
      [16, 0, 0, 0, 32, 0, 64, 0, 128, 0, 0, 0, 0, 0, 0, 171] = none :=
  ⟨by decide, by decide, rfl, by decide⟩

/-- C7: type-1 inputs of length ≥ 7 decode to IPv4 with big-endian port
`data[5:7]`; type-2 of length ≥ 19 to IPv6 with port `data[17:19]`;
type-3 of length ≥ `4 + data[1]` to a domain with port after the name;
truncated inputs and unknown type bytes yield errors (the function is
total, so no crash); `getDestinationLength` returns the matching header
length on the valid shapes. -/
theorem c7_destination_parsing (data : List Nat) :
    (data.getD 0 0 = 1 → 7 ≤ data.length →
      parseDestination data = Except.ok ⟨Address.ipv4 ((data.drop 1).take 4),
        fromBE ((data.drop 5).take 2)⟩ ∧ getDestinationLength data = 7) ∧
    (data.getD 0 0 = 2 → 19 ≤ data.length →
      parseDestination data = Except.ok ⟨Address.ipv6 ((data.drop 1).take 16),
        fromBE ((data.drop 17).take 2)⟩ ∧ getDestinationLength data = 19) ∧
    (data.getD 0 0 = 3 → 4 + data.getD 1 0 ≤ data.length →
      parseDestination data = Except.ok ⟨Address.domain ((data.drop 2).take (data.getD 1 0)),
        fromBE ((data.drop (2 + data.getD 1 0)).take 2)⟩ ∧
      getDestinationLength data = 4 + data.getD 1 0) ∧
    (data.getD 0 0 = 1 → data.length < 7 →
      ∃ e, parseDestination data = Except.error e) ∧
    (data.getD 0 0 = 2 → data.length < 19 →
      ∃ e, parseDestination data = Except.error e) ∧
    (data.getD 0 0 = 3 → data.length < 4 + data.getD 1 0 →
      ∃ e, parseDestination data = Except.error e) ∧
    (data.getD 0 0 ≠ 1 → data.getD 0 0 ≠ 2 → data.getD 0 0 ≠ 3 →
      ∃ e, parseDestination data = Except.error e) := by
  refine ⟨?_, ?_, ?_, ?_, ?_, ?_, ?_⟩
  · intro h1 hlen
    constructor
    · unfold parseDestination
      rw [if_neg (by omega), if_pos h1, if_neg (by omega)]
    · unfold getDestinationLength
      rw [if_neg (by omega), if_pos h1]
  · intro h2 hlen
    constructor
    · unfold parseDestination
      rw [if_neg (by omega), if_neg (by omega), if_pos h2, if_neg (by omega)]
    · unfold getDestinationLength
      rw [if_neg (by omega), if_neg (by omega), if_pos h2]
  · intro h3 hlen
    constructor
    · unfold parseDestination
      rw [if_neg (by omega), if_neg (by omega), if_neg (by omega), if_pos h3,
        if_neg (by omega), if_neg (by omega)]
    · unfold getDestinationLength
      rw [if_neg (by omega), if_neg (by omega), if_neg (by omega), if_pos h3,
        if_neg (by omega)]
  · intro h1 hlen
    unfold parseDestination
    by_cases hs : data.length < 3
    · rw [if_pos hs]
      exact ⟨_, rfl⟩
    · rw [if_neg hs, if_pos h1, if_pos (by omega)]
      exact ⟨_, rfl⟩
  · intro h2 hlen
    unfold parseDestination
    by_cases hs : data.length < 3
    · rw [if_pos hs]
      exact ⟨_, rfl⟩
    · rw [if_neg hs, if_neg (by omega), if_pos h2, if_pos (by omega)]
      exact ⟨_, rfl⟩
  · intro h3 hlen
    unfold parseDestination
    by_cases hs : data.length < 3
    · rw [if_pos hs]
      exact ⟨_, rfl⟩
    · by_cases hs2 : data.length < 2
      · omega
      · rw [if_neg hs, if_neg (by omega), if_neg (by omega), if_pos h3,
          if_neg hs2, if_pos (by omega)]
        exact ⟨_, rfl⟩
  · intro h1 h2 h3
    unfold parseDestination
    by_cases hs : data.length < 3
    · rw [if_pos hs]
      exact ⟨_, rfl⟩
    · rw [if_neg hs, if_neg h1, if_neg h2, if_neg h3]
      exact ⟨_, rfl⟩

theorem c7_witness :
    (([1, 192, 168, 1, 1, 0, 80] : List Nat).getD 0 0 = 1 ∧
      7 ≤ ([1, 192, 168, 1, 1, 0, 80] : List Nat).length) ∧
    (parseDestination [1, 192, 168, 1, 1, 0, 80] =
        Except.ok ⟨Address.ipv4 [192, 168, 1, 1], 80⟩ ∧
      getDestinationLength [1, 192, 168, 1, 1, 0, 80] = 7) ∧
    (parseDestination [3, 2, 97, 98, 0, 80] =
        Except.ok ⟨Address.domain [97, 98], 80⟩ ∧
      getDestinationLength [3, 2, 97, 98, 0, 80] = 4 + 2) ∧
    (∃ e, parseDestination [1] = Except.error e) ∧
    (∃ e, parseDestination [255, 0, 0, 0, 0, 0, 0] = Except.error e) :=
  ⟨⟨rfl, by decide⟩,
   (c7_destination_parsing [1, 192, 168, 1, 1, 0, 80]).1 rfl (by decide),
   (c7_destination_parsing [3, 2, 97, 98, 0, 80]).2.2.1 rfl (by decide),
   (c7_destination_parsing [1]).2.2.2.1 rfl (by decide),
   (c7_destination_parsing [255, 0, 0, 0, 0, 0, 0]).2.2.2.2.2.2
     (by decide) (by decide) (by decide)⟩

theorem ceil_div_le (a f T : Nat) (h : a ≤ f * T) : (a + T - 1) / T ≤ f := by
  rcases Nat.eq_zero_or_pos T with hT | hT
  · subst hT
    simp
  · have hexp : (f + 1) * T = f * T + T := by ring
    have hlt : a + T - 1 < (f + 1) * T := by omega
    have := (Nat.div_lt_iff_lt_mul hT).mpr hlt
    omega

/-- C8 (amended): with a non-nil profile, a payload longer than the
sampled target is split — `p[0:target]` is emitted as a morphed frame
(itself re-morphed under a fresh sample, so it may be split further or
padded) and the writer recurses on `p[target:]`; a chunk no longer than
its target is padded with the supplied random bytes to exactly the
target before sealing; a successful run emits one wire frame per sealed
chunk, at least `⌈len(p)/T⌉` of them when every sampled target is ≤ T,
and the concatenated plaintexts are the original bytes in order, each
contiguous segment followed by the padding of its own chunk (padding
can therefore also sit between original bytes, not only after the final
chunk). -/
theorem c8_morphing_split :
    (∀ (fuel : Nat) (s s₁ s₂ : Session) (ft : Nat) (data : List Nat) (t : Nat)
      (ts pad : List Nat) (f₁ c₁ : List (List Nat)) (ts₁ p₁ : List Nat)
      (f₂ c₂ : List (List Nat)) (ts₂ p₂ : List Nat),
      data.length > t →
      writeMorph fuel s ft (data.take t) ts pad = (s₁, Except.ok (f₁, c₁, ts₁, p₁)) →
      writeMorph fuel s₁ ft (data.drop t) ts₁ p₁ = (s₂, Except.ok (f₂, c₂, ts₂, p₂)) →
      writeMorph (fuel + 1) s ft data (t :: ts) pad =
        (s₂, Except.ok (f₁ ++ f₂, c₁ ++ c₂, ts₂, p₂))) ∧
    (∀ (fuel : Nat) (s : Session) (ft : Nat) (data : List Nat) (t : Nat)
      (ts pad : List Nat),
      data.length ≤ t → t - data.length ≤ pad.length → t ≤ 65519 →
      writeMorph (fuel + 1) s ft data (t :: ts) pad =
        ({ s with writeNonce := s.writeNonce + 1 },
         Except.ok ([beBytes 2 (t + 16) ++ [ft % 256] ++
             aeadSeal s.key (nonceBytes s.writeNonce)
               (data ++ pad.take (t - data.length))],
           [data ++ pad.take (t - data.length)], ts,
           pad.drop (t - data.length))) ∧
      (data ++ pad.take (t - data.length)).length = t) ∧
    (∀ (fuel : Nat) (s : Session) (ft : Nat) (data targets pad : List Nat)
      (s' : Session) (frames chunks : List (List Nat)) (ts' pad' : List Nat) (T : Nat),
      (∀ t ∈ targets, t ≤ T) →
      writeMorph fuel s ft data targets pad =
        (s', Except.ok (frames, chunks, ts', pad')) →
      frames.length = chunks.length ∧
      (∃ segs pads : List (List Nat),
        segs.length = chunks.length ∧ pads.length = chunks.length ∧
        chunks = List.zipWith (fun a b => a ++ b) segs pads ∧
        segs.flatten = data) ∧
      (∀ c ∈ chunks, ∃ t ∈ targets, c.length = t) ∧
      (data.length + T - 1) / T ≤ frames.length) := by
  refine ⟨?_, ?_, ?_⟩
  · intro fuel s s₁ s₂ ft data t ts pad f₁ c₁ ts₁ p₁ f₂ c₂ ts₂ p₂ hgt h₁ h₂
    simp only [writeMorph]
    rw [if_pos hgt, h₁]
    dsimp only
    rw [h₂]
  · intro fuel s ft data t ts pad hle hpad hsmall
    have hAPeq := AddPadding_of_le data t pad hle
    have hAPlen : (AddPadding data t pad).length = t :=
      AddPadding_length_of_le data t pad hle hpad
    have hwf : WriteFrame s ft (AddPadding data t pad) =
        ({ s with writeNonce := s.writeNonce + 1 },
         Except.ok (beBytes 2 (t + 16) ++ [ft % 256] ++
           aeadSeal s.key (nonceBytes s.writeNonce)
             (data ++ pad.take (t - data.length)))) := by
      have := WriteFrame_eq s ft (AddPadding data t pad) (by omega)
      rw [this, hAPlen, hAPeq]
    constructor
    · simp only [writeMorph]
      rw [if_neg (by omega), if_neg (by omega), hwf]
      dsimp only
      rw [hAPeq]
    · rw [← hAPeq, hAPlen]
  · intro fuel s ft data targets pad s' frames chunks ts' pad' T hT h
    obtain ⟨hfl, hdecomp, hmem, _⟩ :=
      writeMorph_decomp fuel s ft data targets pad s' frames chunks ts' pad' h
    refine ⟨hfl, hdecomp, hmem, ?_⟩
    exact ceil_div_le data.length frames.length T
      (writeMorph_count fuel s ft data targets pad s' frames chunks ts' pad' T hT h)

/-- C8 counterexample: payload `[1,2,3]` with sampled targets `2,3,1`
yields chunks `[1,2,9]` and `[3]` — the split prefix `[1,2]` was padded
mid-stream — so the concatenated plaintexts `[1,2,9,3]` are not the
payload followed only by the final chunk's padding (the final chunk has
none), and the payload is not even a prefix of the concatenation. -/
theorem c8_counterexample :
    (writeMorph 10 (Session.mk (List.replicate 32 0) 0 0) 1 [1, 2, 3] [2, 3, 1]
        (List.replicate 8 9)).2.toOption.map (fun q => q.2.1) =
      some [[1, 2, 9], [3]] ∧
    ([[1, 2, 9], [3]] : List (List Nat)).flatten = [1, 2, 9, 3] ∧
    prefixMatch [1, 2, 3] [1, 2, 9, 3] = false :=
  ⟨by decide, by decide, by decide⟩

theorem c8_witness :
    (([5, 6] : List Nat).length ≤ 4 ∧
      4 - ([5, 6] : List Nat).length ≤ (List.replicate 8 9).length ∧
      (4 : Nat) ≤ 65519) ∧
    (writeMorph 1 (Session.mk (List.replicate 32 0) 0 0) 1 [5, 6] [4]
        (List.replicate 8 9) =
      (Session.mk (List.replicate 32 0) 0 1,
       Except.ok ([beBytes 2 (4 + 16) ++ [1 % 256] ++
           aeadSeal (List.replicate 32 0) (nonceBytes 0)
             ([5, 6] ++ (List.replicate 8 9).take 2)],
         [[5, 6] ++ (List.replicate 8 9).take 2], [],
         (List.replicate 8 9).drop 2)) ∧
     ([5, 6] ++ (List.replicate 8 9).take 2).length = 4) ∧
    ((∀ t ∈ ([1, 5, 5] : List Nat), t ≤ 5) ∧
     ([beBytes 2 (5 + 16) ++ [1 % 256] ++
         aeadSeal (List.replicate 32 0) (nonceBytes 0)
           ([1] ++ (List.replicate 9 9).take 4),
       beBytes 2 (5 + 16) ++ [1 % 256] ++
         aeadSeal (List.replicate 32 0) (nonceBytes 1)
           ([2] ++ ((List.replicate 9 9).drop 4).take 4)] :
        List (List Nat)).length =
       ([[1] ++ (List.replicate 9 9).take 4,
         [2] ++ ((List.replicate 9 9).drop 4).take 4] : List (List Nat)).length ∧
     (∃ segs pads : List (List Nat),
       segs.length = ([[1] ++ (List.replicate 9 9).take 4,
         [2] ++ ((List.replicate 9 9).drop 4).take 4] : List (List Nat)).length ∧
       pads.length = ([[1] ++ (List.replicate 9 9).take 4,
         [2] ++ ((List.replicate 9 9).drop 4).take 4] : List (List Nat)).length ∧
       ([[1] ++ (List.replicate 9 9).take 4,
         [2] ++ ((List.replicate 9 9).drop 4).take 4] : List (List Nat)) =
         List.zipWith (fun a b => a ++ b) segs pads ∧
       segs.flatten = [1, 2]) ∧
     (∀ c ∈ ([[1] ++ (List.replicate 9 9).take 4,
         [2] ++ ((List.replicate 9 9).drop 4).take 4] : List (List Nat)),
       ∃ t ∈ ([1, 5, 5] : List Nat), c.length = t) ∧
     (([1, 2] : List Nat).length + 5 - 1) / 5 ≤
       ([beBytes 2 (5 + 16) ++ [1 % 256] ++
           aeadSeal (List.replicate 32 0) (nonceBytes 0)
             ([1] ++ (List.replicate 9 9).take 4),
         beBytes 2 (5 + 16) ++ [1 % 256] ++
           aeadSeal (List.replicate 32 0) (nonceBytes 1)
             ([2] ++ ((List.replicate 9 9).drop 4).take 4)] :
          List (List Nat)).length) :=
  ⟨⟨by decide, by decide, by decide⟩,
   c8_morphing_split.2.1 0 (Session.mk (List.replicate 32 0) 0 0) 1 [5, 6] 4 []
     (List.replicate 8 9) (by decide) (by decide) (by decide),
   by decide,
   c8_morphing_split.2.2 10 (Session.mk (List.replicate 32 0) 0 0) 1 [1, 2]
     [1, 5, 5] (List.replicate 9 9) (Session.mk (List.replicate 32 0) 0 2)
     [beBytes 2 (5 + 16) ++ [1 % 256] ++
        aeadSeal (List.replicate 32 0) (nonceBytes 0)
          ([1] ++ (List.replicate 9 9).take 4),
      beBytes 2 (5 + 16) ++ [1 % 256] ++
        aeadSeal (List.replicate 32 0) (nonceBytes 1)
          ([2] ++ ((List.replicate 9 9).drop 4).take 4)]
     [[1] ++ (List.replicate 9 9).take 4,
      [2] ++ ((List.replicate 9 9).drop 4).take 4] []
     (((List.replicate 9 9).drop 4).drop 4) 5 (by decide) (by rfl)⟩

/-- C9 (amended): for every positive `s`, after `SetNextPacketSize s`
the next `GetPacketSize` returns `s` and clears the override to 0, and
the following call takes the distribution path (returning the sampled
draw, not `s`); symmetrically for `SetNextDelay`/`GetDelay`. A
non-positive override is never consulted. -/
theorem c9_override_one_shot (p : TrafficProfile) (s d draw₁ draw₂ draw₃ draw₄ : Int)
    (hs : 0 < s) (hd : 0 < d) :
    GetPacketSize (SetNextPacketSize p s) draw₁ =
      (s, TrafficProfile.mk 0 p.nextDelay) ∧
    GetPacketSize (TrafficProfile.mk 0 p.nextDelay) draw₂ =
      (draw₂, TrafficProfile.mk 0 p.nextDelay) ∧
    GetDelay (SetNextDelay p d) draw₃ =
      (d, TrafficProfile.mk p.nextPacketSize 0) ∧
    GetDelay (TrafficProfile.mk p.nextPacketSize 0) draw₄ =
      (draw₄, TrafficProfile.mk p.nextPacketSize 0) := by
  refine ⟨?_, ?_, ?_, ?_⟩
  · unfold GetPacketSize SetNextPacketSize
    rw [if_pos hs]
  · unfold GetPacketSize
    rw [if_neg (by simp)]
  · unfold GetDelay SetNextDelay
    rw [if_pos hd]
  · unfold GetDelay
    rw [if_neg (by simp)]

/-- C9 counterexample: the claim quantifies over every size `s`; with
`s = 0` the override field is set but never consulted
(`nextPacketSize > 0` fails), so the next `GetPacketSize` samples the
distribution (here drawing 1400) instead of returning 0. -/
theorem c9_counterexample :
    SetNextPacketSize (TrafficProfile.mk 0 0) 0 = TrafficProfile.mk 0 0 ∧
    GetPacketSize (SetNextPacketSize (TrafficProfile.mk 0 0) 0) 1400 =
      (1400, TrafficProfile.mk 0 0) ∧
    (1400 : Int) ≠ 0 :=
  ⟨by decide, by decide, by decide⟩

theorem c9_witness :
    (0 : Int) < 1500 ∧ (0 : Int) < 50 ∧
    (GetPacketSize (SetNextPacketSize (TrafficProfile.mk 0 0) 1500) 999 =
      (1500, TrafficProfile.mk 0 0) ∧
    GetPacketSize (TrafficProfile.mk 0 0) 888 = (888, TrafficProfile.mk 0 0) ∧
    GetDelay (SetNextDelay (TrafficProfile.mk 0 0) 50) 777 =
      (50, TrafficProfile.mk 0 0) ∧
    GetDelay (TrafficProfile.mk 0 0) 666 = (666, TrafficProfile.mk 0 0)) :=
  ⟨by decide, by decide,
   c9_override_one_shot (TrafficProfile.mk 0 0) 1500 50 999 888 777 666
     (by decide) (by decide)⟩

/-- C10: failures do not roll the counters back. A `ReadFrame` that
fails with `decryption failed` has already incremented the read counter
(the nonce is consumed before the AEAD open); a `WriteFrame` whose
plaintext exceeds 65519 bytes increments the write counter and then
fails with `encrypted frame too large`; the morphing leaf behaves the
same way when the padded chunk exceeds 65519 bytes. -/
theorem c10_nonce_consumed_on_failure :
    (∀ (s : Session) (input : List Nat),
      (ReadFrame s input).2 = Except.error "decryption failed" →
      (ReadFrame s input).1.readNonce = s.readNonce + 1) ∧
    (∀ (s : Session) (t : Nat) (d : List Nat), 65519 < d.length →
      WriteFrame s t d = ({ s with writeNonce := s.writeNonce + 1 },
        Except.error "encrypted frame too large")) ∧
    (∀ (fuel : Nat) (s : Session) (ft t : Nat) (data ts pad : List Nat),
      data.length ≤ t → t - data.length ≤ pad.length → 65519 < t →
      writeMorph (fuel + 1) s ft data (t :: ts) pad =
        ({ s with writeNonce := s.writeNonce + 1 },
         Except.error "encrypted frame too large")) := by
  have hbig : ∀ (s : Session) (t : Nat) (d : List Nat), 65519 < d.length →
      WriteFrame s t d = ({ s with writeNonce := s.writeNonce + 1 },
        Except.error "encrypted frame too large") := by
    intro s t d hlen
    have hseal : (aeadSeal s.key (nonceBytes s.writeNonce) d).length = d.length + 16 :=
      aeadSeal_length_nonce12 _ _ _ (nonceBytes_length _)
    unfold WriteFrame
    rw [if_pos (by omega)]
  refine ⟨?_, hbig, ?_⟩
  · intro s input h
    unfold ReadFrame at h ⊢
    by_cases h3 : input.length < 3
    · rw [if_pos h3] at h
      exact absurd (Except.error.inj h) (by decide)
    rw [if_neg h3] at h ⊢
    by_cases hty : input.getD 2 0 ≠ FrameTypeData ∧ input.getD 2 0 ≠ FrameTypePadding ∧
        input.getD 2 0 ≠ FrameTypeTiming ∧ input.getD 2 0 ≠ FrameTypeClose
    · rw [if_pos hty] at h
      exact absurd (Except.error.inj h) (by decide)
    rw [if_neg hty] at h ⊢
    by_cases hsh : (input.drop 3).length < fromBE (input.take 2)
    · rw [if_pos hsh] at h
      exact absurd (Except.error.inj h) (by decide)
    rw [if_neg hsh] at h ⊢
    rcases hop : aeadOpen s.key (nonceBytes s.readNonce)
        ((input.drop 3).take (fromBE (input.take 2))) with _ | payload
    · simp only [hop]
    · simp only [hop] at h
      exact Except.noConfusion h
  · intro fuel s ft t data ts pad hle hpad hbig'
    have hAPlen : (AddPadding data t pad).length = t :=
      AddPadding_length_of_le data t pad hle hpad
    simp only [writeMorph]
    rw [if_neg (by omega), if_neg (by omega), hbig s ft (AddPadding data t pad) (by omega)]

theorem c10_witness :
    (ReadFrame (Session.mk (List.replicate 32 1) 0 0)
      ([0, 16, 1] ++ List.replicate 16 0)).2 = Except.error "decryption failed" ∧
    (ReadFrame (Session.mk (List.replicate 32 1) 0 0)
      ([0, 16, 1] ++ List.replicate 16 0)).1.readNonce = 0 + 1 ∧
    65519 < (List.replicate 65520 (0 : Nat)).length ∧
    WriteFrame (Session.mk (List.replicate 32 1) 5 7) 1 (List.replicate 65520 0) =
      (Session.mk (List.replicate 32 1) 5 8,
       Except.error "encrypted frame too large") ∧
    writeMorph 3 (Session.mk (List.replicate 32 1) 5 7) 1 [] [65600]
        (List.replicate 65600 0) =
      (Session.mk (List.replicate 32 1) 5 8,
       Except.error "encrypted frame too large") :=
  ⟨by rfl,
   c10_nonce_consumed_on_failure.1 (Session.mk (List.replicate 32 1) 0 0)
     ([0, 16, 1] ++ List.replicate 16 0) (by rfl),
   by rw [List.length_replicate]; omega,
   c10_nonce_consumed_on_failure.2.1 (Session.mk (List.replicate 32 1) 5 7) 1
     (List.replicate 65520 0) (by rw [List.length_replicate]; omega),
   c10_nonce_consumed_on_failure.2.2 2 (Session.mk (List.replicate 32 1) 5 7) 1
     65600 [] [] (List.replicate 65600 0) (by decide)
     (by rw [List.length_replicate]; omega) (by omega)⟩

end Reflex
